import Mathlib

/-!
# Verification of `clear-files` (src/src/main.rs)

A shallow embedding of the CLI utility that deletes entries of a directory
whose last-modified time is older than a user-given threshold.

Conventions of the embedding:
* Rust `u64` values are `Nat` with wrap-around made explicit as `% 2 ^ 64`
  (release-mode wrapping semantics for arithmetic overflow).
* `SystemTime` instants are `Int` seconds relative to the Unix epoch; the
  representable minimum of the clock is `-(2 ^ 63)` (i64 seconds).
* External effects (the prompt from `python_input::input`, `fs::remove_file`
  and `fs::remove_dir_all`) are recorded in an event list; the state of the
  filesystem as seen by the program is an input (`World`).
* Fallible Rust code returning `Result<T, Error>` becomes `Except Err T`.
-/

set_option autoImplicit false

namespace ClearFiles

/-- Source constant `SECONDS_PER_MINUTE: u64 = 60`. -/
def SECONDS_PER_MINUTE : Nat := 60

/-- Source constant `MINUTES_PER_HOUR: u64 = 60`. -/
def MINUTES_PER_HOUR : Nat := 60

/-- Source constant `HOURS_PER_DAY: u64 = 24`. -/
def HOURS_PER_DAY : Nat := 24

/-- Source constant `DAYS_PER_WEEK: u64 = 7`. -/
def DAYS_PER_WEEK : Nat := 7

/-- Modulus of Rust `u64` arithmetic. -/
def U64_MOD : Nat := 2 ^ 64

/-- Wrapping `u64` multiplication (release-mode semantics of Rust `*`). -/
def wmul (a b : Nat) : Nat := a * b % U64_MOD

/-- The `Error` enum of the source. -/
inductive Err where
  | InvalidArgument (name : String)
  | ReadDirError (dirname : String)
  | ReadDirEntryError
  | ReadFileError
  | TimeSubtractionError
  | DeleteFailed (filename : String)
  | Cancelled
deriving DecidableEq

/-- ASCII decimal digit test, as used by Rust's `u64::from_str` (`0`-`9`). -/
def isDigitChar (c : Char) : Bool := 48 ≤ c.toNat && c.toNat ≤ 57

/-- Value of a non-empty string of ASCII digits; `none` if empty or any
character is not a digit. -/
def digitsVal (ds : List Char) : Option Nat :=
  if ds = [] then none
  else if ds.all isDigitChar then
    some (ds.foldl (fun a c => a * 10 + (c.toNat - 48)) 0)
  else none

/-- Rust `str::parse::<u64>()`: an optional single leading `+`, then one or
more ASCII digits, and the value must fit in 64 bits. -/
def parseU64 (s : List Char) : Option Nat :=
  let t := if s.head? = some '+' then s.tail else s
  match digitsVal t with
  | none => none
  | some n => if n < U64_MOD then some n else none

/-- Rust `str::trim_end_matches(c)`: removes ALL trailing occurrences of `c`. -/
def trimEndMatches (c : Char) (s : List Char) : List Char :=
  (s.reverse.dropWhile (fun x => x == c)).reverse

/-- The duration-parsing part of `get_args` (src/src/main.rs lines 60-95):
matches on `duration.chars().last()`; for `Some('d')` strips trailing `d`s and
parses the rest as `u64`, scaling by 60·60·24; for `Some('w')` the same with
`w` and an extra factor 7; anything else is `InvalidArgument { name:
"duration" }`.  Returns the `Duration` as its whole number of seconds. -/
def get_args_duration (s : List Char) : Except Err Nat :=
  match s.getLast? with
  | some u =>
    if u = 'd' then
      match parseU64 (trimEndMatches 'd' s) with
      | some number_of_days =>
        .ok (wmul (wmul (wmul number_of_days SECONDS_PER_MINUTE)
              MINUTES_PER_HOUR) HOURS_PER_DAY)
      | none => .error (.InvalidArgument "duration")
    else if u = 'w' then
      match parseU64 (trimEndMatches 'w' s) with
      | some number_of_weeks =>
        .ok (wmul (wmul (wmul (wmul number_of_weeks SECONDS_PER_MINUTE)
              MINUTES_PER_HOUR) HOURS_PER_DAY) DAYS_PER_WEEK)
      | none => .error (.InvalidArgument "duration")
    else .error (.InvalidArgument "duration")
  | none => .error (.InvalidArgument "duration")

/-- Minimum representable `SystemTime`, in seconds (i64 seconds on Unix). -/
def MIN_TIME : Int := -(2 ^ 63)

/-- Models `SystemTime::checked_sub(duration)` at second granularity:
`now − d`, or `none` when the result would precede the representable
minimum. -/
def checked_sub (now : Int) (d : Nat) : Option Int :=
  if now - (d : Int) < MIN_TIME then none else some (now - (d : Int))

/-- What `file.path().is_file()` / `is_dir()` report for a scanned entry:
a regular file, a directory, or neither (broken symlink etc.). -/
inductive EntryKind where
  | file
  | dir
  | other
deriving DecidableEq

/-- A successfully readable directory entry as the program observes it:
its file name, its kind at deletion time, its last-modified time (seconds),
and whether the removal call (`remove_file` / `remove_dir_all`) succeeds. -/
structure Entry where
  name : String
  kind : EntryKind
  modified : Int
  deleteOk : Bool
deriving DecidableEq

/-- One item yielded by `fs::read_dir`'s iterator: the `DirEntry` read can
fail (`ReadDirEntryError`), its `metadata()`/`modified()` can fail
(`ReadFileError`), or the entry is readable. -/
inductive ScanItem where
  | entryErr
  | metaErr
  | ok (e : Entry)
deriving DecidableEq

/-- Observable external actions of `main_script`: showing the confirmation
prompt (`python_input::input`), `fs::remove_file`, `fs::remove_dir_all`. -/
inductive Event where
  | prompt
  | removeFile (name : String)
  | removeDirAll (name : String)
deriving DecidableEq

/-- The external state a single run reads: the duration CLI argument, the
current wall-clock time, the `--path` argument, the stdin answer line, and
the directory listing (`none` when `fs::read_dir` itself fails). -/
structure World where
  durationStr : List Char
  now : Int
  path : String
  answer : String
  dir : Option (List ScanItem)

/-- The classification pass (src/src/main.rs lines 116-128): for each item,
in order, propagate the first read failure, otherwise pair the entry with
`is_old = modified < threshold` (strict `SystemTime::lt`). -/
def classify (t : Int) : List ScanItem → Except Err (List (Entry × Bool))
  | [] => .ok []
  | .entryErr :: _ => .error .ReadDirEntryError
  | .metaErr :: _ => .error .ReadFileError
  | .ok e :: rest => (classify t rest).map (fun l => (e, decide (e.modified < t)) :: l)

/-- The filter_map step (line 133): keep exactly the entries classified old,
in scan order. -/
def oldEntries (cls : List (Entry × Bool)) : List Entry :=
  (cls.filter (fun p => p.2)).map (fun p => p.1)

/-- Deleting one old entry (lines 134-149): a regular file gets
`remove_file`, a directory gets `remove_dir_all`, anything else is
`DeleteFailed` with no removal call; a failed removal is also
`DeleteFailed`, carrying `file.file_name()`. -/
def delete_one (e : Entry) : Except Err Unit × List Event :=
  match e.kind with
  | .file => (if e.deleteOk then .ok () else .error (.DeleteFailed e.name), [.removeFile e.name])
  | .dir => (if e.deleteOk then .ok () else .error (.DeleteFailed e.name), [.removeDirAll e.name])
  | .other => (.error (.DeleteFailed e.name), [])

/-- The deletion pass with `collect::<Result<Vec<()>>>` semantics: process
entries in order, stop at the first error (later entries are not attempted),
and on success return the number of deleted entries (`results?.len()`). -/
def deleteEntries : List Entry → Except Err Nat × List Event
  | [] => (.ok 0, [])
  | e :: rest =>
    match (delete_one e).1 with
    | .ok _ =>
      ((deleteEntries rest).1.map (fun n => n + 1),
        (delete_one e).2 ++ (deleteEntries rest).2)
    | .error err => (.error err, (delete_one e).2)

/-- `main_script` (src/src/main.rs lines 98-153): parse the duration, compute
the threshold with `checked_sub` (else `TimeSubtractionError`), show the
prompt and read the answer, fail `Cancelled` unless it is exactly `"y"`,
then read the directory (else `ReadDirError` with the path), classify every
entry, and delete the old ones. -/
def main_script (w : World) : Except Err Nat × List Event :=
  match get_args_duration w.durationStr with
  | .error e => (.error e, [])
  | .ok secs =>
    match checked_sub w.now secs with
    | none => (.error .TimeSubtractionError, [])
    | some t =>
      if w.answer ≠ "y" then (.error .Cancelled, [.prompt])
      else
        match w.dir with
        | none => (.error (.ReadDirError w.path), [.prompt])
        | some items =>
          match classify t items with
          | .error e => (.error e, [.prompt])
          | .ok cls =>
            ((deleteEntries (oldEntries cls)).1,
              .prompt :: (deleteEntries (oldEntries cls)).2)

/-- The success line printed by `main` (line 158). -/
def successMessage (n : Nat) : String :=
  "Successfully removed " ++ toString n ++ " files!"

/-- The panic messages of `main`'s error match (lines 164-171). -/
def panicMessage : Err → String
  | .InvalidArgument name => "Invalid argument provided for argument " ++ name
  | .ReadDirError dirname => "Failed to read directory " ++ dirname
  | .ReadFileError => "Failed to read file"
  | .TimeSubtractionError => "Failed to subtract time"
  | .DeleteFailed filename => "Failed to delete " ++ filename
  | .ReadDirEntryError => "Failed to read dir entry"
  | .Cancelled => "Cancelled by user."

/-- What one run prints and whether the process exits normally (`return`
from `main`, exit 0) or panics. -/
structure RunResult where
  output : String
  exitNormal : Bool
deriving DecidableEq

/-- `main` (lines 155-172): print the success count and return, or panic
with the error's message. -/
def main_run (w : World) : RunResult × List Event :=
  match main_script w with
  | (.ok files_count, evs) => ({ output := successMessage files_count, exitNormal := true }, evs)
  | (.error e, evs) => ({ output := panicMessage e, exitNormal := false }, evs)

/-! ## Helper lemmas about the duration parser -/

lemma digitsVal_ne_nil {ds : List Char} {n : Nat} (h : digitsVal ds = some n) :
    ds ≠ [] := by
  intro hnil
  subst hnil
  simp [digitsVal] at h

lemma digitsVal_all {ds : List Char} {n : Nat} (h : digitsVal ds = some n) :
    ∀ c ∈ ds, isDigitChar c = true := by
  intro c hc
  unfold digitsVal at h
  split at h
  · exact absurd h (by simp)
  · split at h
    · next hall => exact List.all_eq_true.mp hall c hc
    · exact absurd h (by simp)

lemma isDigitChar_ne_of {c : Char} (h : isDigitChar c = true) :
    c ≠ 'd' ∧ c ≠ 'w' ∧ c ≠ '+' := by
  refine ⟨?_, ?_, ?_⟩ <;> intro hEq <;> subst hEq <;> exact absurd h (by decide)

lemma trimEndMatches_append {ds : List Char} (u : Char)
    (hds : ∀ c ∈ ds, (c == u) = false) :
    trimEndMatches u (ds ++ [u]) = ds := by
  unfold trimEndMatches
  rw [List.reverse_append]
  simp only [List.reverse_cons, List.reverse_nil, List.nil_append, List.singleton_append]
  rw [List.dropWhile_cons_of_pos (by simp)]
  cases hrev : ds.reverse with
  | nil =>
    simp [List.reverse_eq_nil_iff.mp hrev]
  | cons a tail =>
    have ha : a ∈ ds := by
      have : a ∈ ds.reverse := by rw [hrev]; exact List.mem_cons_self a tail
      exact List.mem_reverse.mp this
    rw [List.dropWhile_cons_of_neg (by simp [hds a ha]), ← hrev, List.reverse_reverse]

lemma parseU64_of_digitsVal {ds : List Char} {n : Nat}
    (h : digitsVal ds = some n) (hn : n < U64_MOD) :
    parseU64 ds = some n := by
  cases ds with
  | nil => exact absurd h (by simp [digitsVal])
  | cons c cs =>
    have hc : isDigitChar c = true := digitsVal_all h c (List.mem_cons_self c cs)
    have hne : c ≠ '+' := (isDigitChar_ne_of hc).2.2
    simp only [parseU64, List.head?_cons, List.tail_cons, Option.some.injEq, hne,
      if_false, h, hn, if_true]

lemma wmul_mod (a b : Nat) : wmul (a % U64_MOD) b = a * b % U64_MOD := by
  unfold wmul
  rw [Nat.mod_mul_mod]

lemma wmul_chain_days (n : Nat) :
    wmul (wmul (wmul n SECONDS_PER_MINUTE) MINUTES_PER_HOUR) HOURS_PER_DAY
      = n * 86400 % U64_MOD := by
  show wmul (wmul (wmul n 60) 60) 24 = n * 86400 % U64_MOD
  rw [show wmul n 60 = n * 60 % U64_MOD from rfl, wmul_mod, wmul_mod]
  have : n * 60 * 60 * 24 = n * 86400 := by ring
  rw [this]

lemma wmul_chain_weeks (n : Nat) :
    wmul (wmul (wmul (wmul n SECONDS_PER_MINUTE) MINUTES_PER_HOUR) HOURS_PER_DAY)
      DAYS_PER_WEEK = n * 604800 % U64_MOD := by
  show wmul (wmul (wmul (wmul n 60) 60) 24) 7 = n * 604800 % U64_MOD
  rw [show wmul n 60 = n * 60 % U64_MOD from rfl, wmul_mod, wmul_mod, wmul_mod]
  have : n * 60 * 60 * 24 * 7 = n * 604800 := by ring
  rw [this]

/-! ## C1 -/

/-- C1: for every duration string of the form `<n>d` with `n` a decimal
numeral fitting in `u64`, the parser yields `(n × 86400) mod 2^64` seconds,
and of the form `<n>w` it yields `(n × 604800) mod 2^64` seconds; whenever
the product does not overflow 64 bits, these equal `n × 86400` and
`n × 604800` exactly. -/
theorem C1_parsed_duration_scaling (ds : List Char) (n : Nat)
    (h : digitsVal ds = some n) (hn : n < U64_MOD) :
    get_args_duration (ds ++ ['d']) = .ok (n * 86400 % U64_MOD) ∧
    get_args_duration (ds ++ ['w']) = .ok (n * 604800 % U64_MOD) ∧
    (n * 604800 < U64_MOD →
      n * 86400 % U64_MOD = n * 86400 ∧ n * 604800 % U64_MOD = n * 604800) := by
  have hall := digitsVal_all h
  have htrimd : trimEndMatches 'd' (ds ++ ['d']) = ds :=
    trimEndMatches_append 'd'
      (fun c hc => beq_eq_false_iff_ne.mpr (isDigitChar_ne_of (hall c hc)).1)
  have htrimw : trimEndMatches 'w' (ds ++ ['w']) = ds :=
    trimEndMatches_append 'w'
      (fun c hc => beq_eq_false_iff_ne.mpr (isDigitChar_ne_of (hall c hc)).2.1)
  have hp := parseU64_of_digitsVal h hn
  refine ⟨?_, ?_, ?_⟩
  · simp only [get_args_duration, List.getLast?_concat, htrimd, hp, if_true]
    rw [wmul_chain_days]
  · have hwd : ('w' = 'd') = False := eq_false (by decide)
    simp only [get_args_duration, List.getLast?_concat, hwd, if_false, htrimw, hp, if_true]
    rw [wmul_chain_weeks]
  · intro hfit
    have hle : n * 86400 ≤ n * 604800 := Nat.mul_le_mul_left n (by norm_num)
    exact ⟨Nat.mod_eq_of_lt (lt_of_le_of_lt hle hfit), Nat.mod_eq_of_lt hfit⟩

/-- Witness for C1 at the concrete numeral 42: `42d` parses to 42 × 86400
seconds exactly. -/
theorem C1_parsed_duration_scaling_witness :
    get_args_duration ("42".data ++ ['d']) = .ok (42 * 86400 % U64_MOD) ∧
    42 * 86400 % U64_MOD = 42 * 86400 :=
  ⟨(C1_parsed_duration_scaling ("42".data) 42 rfl (by decide)).1,
    ((C1_parsed_duration_scaling ("42".data) 42 rfl (by decide)).2.2 (by decide)).1⟩

/-- C1 as literally stated is false: the accepted string
`300000000000000d` produces the 64-bit wrapped value
`(300000000000000 × 86400) mod 2^64`, which differs from
`300000000000000 × 86400`. -/
theorem C1_overflow_counterexample :
    get_args_duration ("300000000000000d".data)
      = .ok (300000000000000 * 86400 % U64_MOD) ∧
    300000000000000 * 86400 % U64_MOD ≠ 300000000000000 * 86400 :=
  ⟨rfl, by decide⟩

/-! ## C2 -/

/-- Failure condition of the duration parser, stated over the characters the
source inspects: no final character, a final character other than `d`/`w`,
or a numeric portion (after removing ALL trailing copies of the unit
character, as `trim_end_matches` does) that does not parse as a `u64`. -/
def durationFailCond (s : List Char) : Bool :=
  match s.getLast? with
  | some u =>
    if u = 'd' then (parseU64 (trimEndMatches 'd' s)).isNone
    else if u = 'w' then (parseU64 (trimEndMatches 'w' s)).isNone
    else true
  | none => true

/-- C2 amended: duration parsing fails with `InvalidArgument` carrying
"duration" exactly when the final character is absent or neither `d` nor
`w`, or when the portion remaining after stripping ALL trailing copies of
the unit character does not parse as a non-negative 64-bit integer; it
succeeds on every other input. -/
theorem C2_invalid_argument_iff (s : List Char) :
    (get_args_duration s = .error (.InvalidArgument "duration") ↔
      durationFailCond s = true) ∧
    (durationFailCond s = false → ∃ v, get_args_duration s = .ok v) := by
  unfold get_args_duration durationFailCond
  cases hlast : s.getLast? with
  | none => simp
  | some u =>
    by_cases hd : u = 'd'
    · subst hd
      simp only [eq_self_iff_true, if_true]
      cases hp : parseU64 (trimEndMatches 'd' s) with
      | none => simp
      | some n => exact ⟨by simp, fun _ => ⟨_, rfl⟩⟩
    · by_cases hw : u = 'w'
      · subst hw
        simp only [hd, if_false, eq_self_iff_true, if_true]
        cases hp : parseU64 (trimEndMatches 'w' s) with
        | none => simp
        | some n => exact ⟨by simp, fun _ => ⟨_, rfl⟩⟩
      · simp [hd, hw]

/-- Witness for C2 at the concrete inputs `xq` (failure side) and `3w`
(success side). -/
theorem C2_invalid_argument_iff_witness :
    get_args_duration ("xq".data) = .error (.InvalidArgument "duration") ∧
    ∃ v, get_args_duration ("3w".data) = .ok v :=
  ⟨(C2_invalid_argument_iff ("xq".data)).1.mpr rfl,
    (C2_invalid_argument_iff ("3w".data)).2 rfl⟩

/-- C2 as literally stated is false at the input `5dd`: the portion left
after stripping the SINGLE trailing unit character is `5d`, which does not
parse as an integer, so the claim requires InvalidArgument; the code strips
ALL trailing `d` characters and succeeds with 5 days (432000 seconds). -/
theorem C2_single_strip_counterexample :
    parseU64 (("5dd".data).dropLast) = none ∧
    get_args_duration ("5dd".data) = .ok 432000 :=
  ⟨rfl, rfl⟩

/-! ## C3 -/

/-- C3: the threshold is now − duration; `checked_sub` fails exactly when
the result would precede the representable minimum time; on success the
threshold equals now − duration, is strictly earlier than now for positive
durations, and equals now for a zero duration. -/
theorem C3_threshold_subtraction (now : Int) (d : Nat) :
    (checked_sub now d = none ↔ now - (d : Int) < MIN_TIME) ∧
    (∀ t, checked_sub now d = some t →
      t = now - (d : Int) ∧ (0 < d → t < now) ∧ (d = 0 → t = now)) := by
  constructor
  · unfold checked_sub
    split
    · next hlt => simpa using hlt
    · next hge => simp [hge]
  · intro t ht
    unfold checked_sub at ht
    split at ht
    · exact absurd ht (by simp)
    · have hteq : t = now - (d : Int) := (Option.some.inj ht).symm
      refine ⟨hteq, ?_, ?_⟩
      · intro hdpos
        rw [hteq]
        have : (0 : Int) < (d : Int) := by exact_mod_cast hdpos
        omega
      · intro hdzero
        rw [hteq, hdzero]
        simp

/-- Witness for C3: at now = 100 with a 40-second duration the threshold is
60 = 100 − 40, strictly earlier than now. -/
theorem C3_threshold_subtraction_witness :
    (60 : Int) = 100 - ((40 : Nat) : Int) ∧ (60 : Int) < 100 := by
  have h := (C3_threshold_subtraction 100 40).2 60 rfl
  exact ⟨h.1, h.2.1 (by decide)⟩

/-! ## C4 -/

/-- C4: the classification pairs each scanned entry with `is_old` true
exactly when its modified time is strictly earlier than the threshold;
an entry modified exactly at the threshold, or later, is classified not
old. -/
theorem C4_is_old_iff (t : Int) (items : List ScanItem) (cls : List (Entry × Bool))
    (h : classify t items = .ok cls) :
    ∀ e b, (e, b) ∈ cls → (b = true ↔ e.modified < t) := by
  induction items generalizing cls with
  | nil =>
    simp only [classify, Except.ok.injEq] at h
    subst h
    simp
  | cons item rest ih =>
    cases item with
    | entryErr => exact absurd h (by simp [classify])
    | metaErr => exact absurd h (by simp [classify])
    | ok e =>
      simp only [classify] at h
      cases hrest : classify t rest with
      | error err =>
        rw [hrest] at h
        exact absurd h (by simp [Except.map])
      | ok l =>
        rw [hrest] at h
        simp only [Except.map, Except.ok.injEq] at h
        subst h
        intro e' b' hmem
        rcases List.mem_cons.mp hmem with hh | htail
        · rw [Prod.mk.injEq] at hh
          obtain ⟨he, hb⟩ := hh
          subst he
          subst hb
          simp
        · exact ih l hrest e' b' htail

/-- Witness for C4 at a concrete scan: one file modified at time 5 against
threshold 10 is classified old. -/
theorem C4_is_old_iff_witness : (true = true ↔ (5 : Int) < 10) :=
  C4_is_old_iff 10 [.ok ⟨"a", .file, 5, true⟩] [(⟨"a", .file, 5, true⟩, true)] rfl
    ⟨"a", .file, 5, true⟩ true (List.mem_singleton.mpr rfl)

/-! ## Helper lemmas about the deletion pass -/

lemma main_script_eq_after_prompt (w : World) (secs : Nat) (t : Int)
    (items : List ScanItem) (cls : List (Entry × Bool))
    (hd : get_args_duration w.durationStr = .ok secs)
    (ht : checked_sub w.now secs = some t)
    (ha : w.answer = "y")
    (hdir : w.dir = some items)
    (hcls : classify t items = .ok cls) :
    main_script w = ((deleteEntries (oldEntries cls)).1,
      .prompt :: (deleteEntries (oldEntries cls)).2) := by
  simp [main_script, hd, ht, hdir, hcls, ha]

lemma main_script_eq_cancelled (w : World) (secs : Nat) (t : Int)
    (hd : get_args_duration w.durationStr = .ok secs)
    (ht : checked_sub w.now secs = some t)
    (ha : w.answer ≠ "y") :
    main_script w = (.error .Cancelled, [.prompt]) := by
  simp [main_script, hd, ht, ha]

lemma delete_one_ok {e : Entry} (h : e.kind ≠ EntryKind.other ∧ e.deleteOk = true) :
    (delete_one e).1 = .ok () := by
  obtain ⟨name, kind, m, dok⟩ := e
  cases kind <;> simp_all [delete_one]

lemma delete_one_err {e : Entry} (h : e.kind = EntryKind.other ∨ e.deleteOk = false) :
    (delete_one e).1 = .error (.DeleteFailed e.name) := by
  obtain ⟨name, kind, m, dok⟩ := e
  cases kind <;> cases dok <;> simp_all [delete_one]

lemma delete_one_event_name {e : Entry} {ev : Event} (h : ev ∈ (delete_one e).2) :
    ev = .removeFile e.name ∨ ev = .removeDirAll e.name := by
  obtain ⟨name, kind, m, dok⟩ := e
  cases kind <;> simp_all [delete_one]

lemma deleteEntries_cons_ok (e : Entry) (rest : List Entry)
    (h : (delete_one e).1 = .ok ()) :
    deleteEntries (e :: rest)
      = ((deleteEntries rest).1.map (fun n => n + 1),
          (delete_one e).2 ++ (deleteEntries rest).2) := by
  simp only [deleteEntries, h]

lemma deleteEntries_cons_err (e : Entry) (rest : List Entry) (err : Err)
    (h : (delete_one e).1 = .error err) :
    deleteEntries (e :: rest) = (.error err, (delete_one e).2) := by
  simp only [deleteEntries, h]

/-- The removal calls that deleting a list of entries in order would issue,
with no short-circuiting: one call per entry of kind file or dir. -/
def removalTrace : List Entry → List Event
  | [] => []
  | e :: rest => (delete_one e).2 ++ removalTrace rest

lemma deleteEntries_all_ok (es : List Entry)
    (h : ∀ e ∈ es, e.kind ≠ EntryKind.other ∧ e.deleteOk = true) :
    (deleteEntries es).1 = .ok es.length ∧
    (deleteEntries es).2 = removalTrace es := by
  induction es with
  | nil => exact ⟨rfl, rfl⟩
  | cons e rest ih =>
    have h1 := delete_one_ok (h e (List.mem_cons_self e rest))
    have ihh := ih (fun x hx => h x (List.mem_cons_of_mem e hx))
    rw [deleteEntries_cons_ok e rest h1]
    constructor
    · simp only [ihh.1, Except.map, List.length_cons]
    · simp only [ihh.2, removalTrace]

lemma deleteEntries_events_sub (es : List Entry) (ev : Event)
    (hev : ev ∈ (deleteEntries es).2) :
    ∃ e, e ∈ es ∧ ev ∈ (delete_one e).2 := by
  induction es with
  | nil => exact absurd hev (by simp [deleteEntries])
  | cons e rest ih =>
    cases h1 : (delete_one e).1 with
    | ok u =>
      cases u
      rw [deleteEntries_cons_ok e rest h1] at hev
      rcases List.mem_append.mp hev with hl | hr
      · exact ⟨e, List.mem_cons_self e rest, hl⟩
      · obtain ⟨e', he', hev'⟩ := ih hr
        exact ⟨e', List.mem_cons_of_mem e he', hev'⟩
    | error err =>
      rw [deleteEntries_cons_err e rest err h1] at hev
      exact ⟨e, List.mem_cons_self e rest, hev⟩

lemma mem_oldEntries {cls : List (Entry × Bool)} {e : Entry}
    (h : e ∈ oldEntries cls) : (e, true) ∈ cls := by
  unfold oldEntries at h
  rcases List.mem_map.mp h with ⟨p, hp, hpe⟩
  obtain ⟨hmem, hold⟩ := List.mem_filter.mp hp
  rcases p with ⟨a, bb⟩
  have hb : bb = true := hold
  have ha : a = e := hpe
  subst hb
  subst ha
  exact hmem

/-! ## C5 -/

/-- C5 amended: the confirmation prompt is shown before the directory scan.
When parsing and threshold computation succeed and the target path cannot
be listed, the program fails with ReadDirError only after the prompt has
been shown and answered `y`; if the answer is not `y` it fails with
Cancelled without the scan being consulted. -/
theorem C5_prompt_precedes_scan (w : World) (secs : Nat) (t : Int)
    (hd : get_args_duration w.durationStr = .ok secs)
    (ht : checked_sub w.now secs = some t)
    (hdir : w.dir = none) :
    (w.answer = "y" → main_script w = (.error (.ReadDirError w.path), [.prompt])) ∧
    (w.answer ≠ "y" → main_script w = (.error .Cancelled, [.prompt])) := by
  constructor <;> intro ha
  · simp [main_script, hd, ht, hdir, ha]
  · exact main_script_eq_cancelled w secs t hd ht ha

/-- Witness for C5 at a concrete world whose path cannot be listed: the
run fails with ReadDirError and the prompt event was produced. -/
theorem C5_prompt_precedes_scan_witness :
    main_script ⟨"1d".data, 1000000, "missing", "y", none⟩
      = (.error (.ReadDirError "missing"), [.prompt]) :=
  (C5_prompt_precedes_scan ⟨"1d".data, 1000000, "missing", "y", none⟩
    86400 913600 rfl rfl rfl).1 rfl

/-- C5 as literally stated is false: with a nonexistent target path and a
confirming answer, the program does fail with ReadDirError, but the
confirmation prompt HAS been shown (the prompt event is in the trace),
because the code prompts before calling read_dir. -/
theorem C5_scan_order_counterexample :
    (main_script ⟨"1d".data, 1000000, "missing", "y", none⟩).1
      = .error (.ReadDirError "missing") ∧
    Event.prompt ∈ (main_script ⟨"1d".data, 1000000, "missing", "y", none⟩).2 :=
  ⟨rfl, List.mem_singleton.mpr rfl⟩

/-! ## C6 -/

/-- C6: once parsing and threshold computation have succeeded, any stdin
line other than exactly `y` makes the run fail with Cancelled, with the
prompt as its only event — in particular no removal call is made. -/
theorem C6_cancelled_zero_deletions (w : World) (secs : Nat) (t : Int)
    (hd : get_args_duration w.durationStr = .ok secs)
    (ht : checked_sub w.now secs = some t)
    (ha : w.answer ≠ "y") :
    (main_script w).1 = .error .Cancelled ∧
    (main_script w).2 = [.prompt] ∧
    ∀ name, Event.removeFile name ∉ (main_script w).2 ∧
      Event.removeDirAll name ∉ (main_script w).2 := by
  have hm := main_script_eq_cancelled w secs t hd ht ha
  rw [hm]
  refine ⟨rfl, rfl, fun name => ⟨?_, ?_⟩⟩ <;> simp

/-- Witness for C6: answering `n` yields Cancelled and no removal call. -/
theorem C6_cancelled_zero_deletions_witness :
    (main_script ⟨"1d".data, 1000000, "p", "n", some []⟩).1 = .error .Cancelled ∧
    Event.removeFile "a" ∉ (main_script ⟨"1d".data, 1000000, "p", "n", some []⟩).2 := by
  have h := C6_cancelled_zero_deletions ⟨"1d".data, 1000000, "p", "n", some []⟩
    86400 913600 rfl rfl (by decide)
  exact ⟨h.1, (h.2.2 "a").1⟩

/-! ## C7 -/

/-- C7: the deletion pass is fail-fast. If every entry before `b` deletes
successfully and `b` fails (it is neither file nor directory, or its
removal fails), the overall result is DeleteFailed with `b`'s filename, and
the removal calls issued are exactly those for the prefix plus the single
attempted call on `b` (none when `b` is neither file nor directory):
entries after the first failure are not attempted. -/
theorem C7_fail_fast (pre : List Entry) (b : Entry) (post : List Entry)
    (hpre : ∀ e ∈ pre, e.kind ≠ EntryKind.other ∧ e.deleteOk = true)
    (hb : b.kind = EntryKind.other ∨ b.deleteOk = false) :
    (deleteEntries (pre ++ b :: post)).1 = .error (.DeleteFailed b.name) ∧
    (deleteEntries (pre ++ b :: post)).2 = removalTrace pre ++ (delete_one b).2 := by
  induction pre with
  | nil =>
    have hb1 := delete_one_err hb
    rw [List.nil_append, deleteEntries_cons_err b post _ hb1]
    exact ⟨rfl, rfl⟩
  | cons e pre ih =>
    have h1 := delete_one_ok (hpre e (List.mem_cons_self e pre))
    have ihh := ih (fun x hx => hpre x (List.mem_cons_of_mem e hx))
    rw [List.cons_append, deleteEntries_cons_ok e (pre ++ b :: post) h1]
    constructor
    · simp only [ihh.1, Except.map]
    · simp only [ihh.2, removalTrace, List.append_assoc]

/-- Witness for C7: deleting file `a`, then unremovable entry `b`, then
file `c` fails with DeleteFailed `b` after removing only `a`. -/
theorem C7_fail_fast_witness :
    (deleteEntries ([⟨"a", .file, 0, true⟩] ++
        (⟨"b", .other, 0, true⟩ : Entry) :: [⟨"c", .file, 0, true⟩])).1
      = .error (.DeleteFailed "b") ∧
    (deleteEntries ([⟨"a", .file, 0, true⟩] ++
        (⟨"b", .other, 0, true⟩ : Entry) :: [⟨"c", .file, 0, true⟩])).2
      = removalTrace [⟨"a", .file, 0, true⟩] ++
          (delete_one ⟨"b", .other, 0, true⟩).2 :=
  C7_fail_fast [⟨"a", .file, 0, true⟩] ⟨"b", .other, 0, true⟩
    [⟨"c", .file, 0, true⟩] (by decide) (Or.inl rfl)

/-! ## C8 -/

/-- C8: an entry classified not old is never passed to the deletion step:
no removal call carrying its name appears in the run's event trace
(assuming no old entry shares its name, as names in one directory are
unique). -/
theorem C8_not_old_untouched (w : World) (secs : Nat) (t : Int)
    (items : List ScanItem) (cls : List (Entry × Bool))
    (hd : get_args_duration w.durationStr = .ok secs)
    (ht : checked_sub w.now secs = some t)
    (hdir : w.dir = some items)
    (hcls : classify t items = .ok cls)
    (e : Entry) (he : (e, false) ∈ cls)
    (hname : ∀ p ∈ cls, p.1.name = e.name → p.2 = false) :
    Event.removeFile e.name ∉ (main_script w).2 ∧
    Event.removeDirAll e.name ∉ (main_script w).2 := by
  by_cases ha : w.answer = "y"
  · have hm := main_script_eq_after_prompt w secs t items cls hd ht ha hdir hcls
    rw [hm]
    have key : ∀ ev ∈ (deleteEntries (oldEntries cls)).2,
        ev ≠ Event.removeFile e.name ∧ ev ≠ Event.removeDirAll e.name := by
      intro ev hev
      obtain ⟨e', he'mem, hevin⟩ := deleteEntries_events_sub _ ev hev
      have hold : (e', true) ∈ cls := mem_oldEntries he'mem
      have hne : e'.name ≠ e.name := by
        intro hEq
        exact Bool.noConfusion (hname (e', true) hold hEq)
      rcases delete_one_event_name hevin with hev' | hev' <;> subst hev' <;>
        constructor <;> intro hc <;>
        first
          | exact Event.noConfusion hc
          | (injection hc with hnm; exact hne hnm)
    constructor <;> intro hmem <;> rcases List.mem_cons.mp hmem with hch | hin
    · exact Event.noConfusion hch
    · exact (key _ hin).1 rfl
    · exact Event.noConfusion hch
    · exact (key _ hin).2 rfl
  · have hm := main_script_eq_cancelled w secs t hd ht ha
    rw [hm]
    constructor <;> simp

/-- Witness for C8: a file modified after the threshold is classified not
old and no removal call with its name occurs in the trace. -/
theorem C8_not_old_untouched_witness :
    Event.removeFile "keep" ∉
      (main_script ⟨"1d".data, 1000000, "p", "y",
        some [.ok ⟨"keep", .file, 999999, true⟩]⟩).2 :=
  (C8_not_old_untouched ⟨"1d".data, 1000000, "p", "y",
      some [.ok ⟨"keep", .file, 999999, true⟩]⟩ 86400 913600
      [.ok ⟨"keep", .file, 999999, true⟩] [(⟨"keep", .file, 999999, true⟩, false)]
      rfl rfl rfl rfl ⟨"keep", .file, 999999, true⟩
      (List.mem_singleton.mpr rfl) (by decide)).1

/-! ## C9 -/

/-- C9: on full success — parse, threshold, confirmation with `y`, scan and
every removal succeed — the script returns exactly the number of entries
classified old, and the program prints `Successfully removed <N> files!`
with that N and exits normally. -/
theorem C9_success_count (w : World) (secs : Nat) (t : Int)
    (items : List ScanItem) (cls : List (Entry × Bool))
    (hd : get_args_duration w.durationStr = .ok secs)
    (ht : checked_sub w.now secs = some t)
    (ha : w.answer = "y")
    (hdir : w.dir = some items)
    (hcls : classify t items = .ok cls)
    (hdel : ∀ e ∈ oldEntries cls, e.kind ≠ EntryKind.other ∧ e.deleteOk = true) :
    (main_script w).1 = .ok (oldEntries cls).length ∧
    (main_run w).1 = ⟨"Successfully removed " ++ toString (oldEntries cls).length
      ++ " files!", true⟩ := by
  have hm := main_script_eq_after_prompt w secs t items cls hd ht ha hdir hcls
  have hs := (deleteEntries_all_ok (oldEntries cls) hdel).1
  constructor
  · rw [hm]
    exact hs
  · unfold main_run
    rw [hm, hs]
    rfl

/-- Witness for C9: a directory with one old file reports
`Successfully removed 1 files!` and a normal exit. -/
theorem C9_success_count_witness :
    (main_run ⟨"1d".data, 1000000, "p", "y", some [.ok ⟨"old", .file, 0, true⟩]⟩).1
      = ⟨"Successfully removed 1 files!", true⟩ :=
  (C9_success_count ⟨"1d".data, 1000000, "p", "y", some [.ok ⟨"old", .file, 0, true⟩]⟩
    86400 913600 [.ok ⟨"old", .file, 0, true⟩] [(⟨"old", .file, 0, true⟩, true)]
    rfl rfl rfl rfl rfl (by decide)).2

/-! ## C10 -/

/-- C10: when the user confirms with `y`, the scan succeeds and no entry is
classified old, the run makes no removal call (the prompt is its only
event), prints `Successfully removed 0 files!` and exits normally. -/
theorem C10_zero_removed (w : World) (secs : Nat) (t : Int)
    (items : List ScanItem) (cls : List (Entry × Bool))
    (hd : get_args_duration w.durationStr = .ok secs)
    (ht : checked_sub w.now secs = some t)
    (ha : w.answer = "y")
    (hdir : w.dir = some items)
    (hcls : classify t items = .ok cls)
    (hnone : oldEntries cls = []) :
    main_run w = (⟨"Successfully removed 0 files!", true⟩, [.prompt]) := by
  have hm := main_script_eq_after_prompt w secs t items cls hd ht ha hdir hcls
  unfold main_run
  rw [hm, hnone]
  rfl

/-- Witness for C10: an empty directory scan reports zero removals with a
normal exit and no removal event. -/
theorem C10_zero_removed_witness :
    main_run ⟨"1d".data, 1000000, "p", "y", some []⟩
      = (⟨"Successfully removed 0 files!", true⟩, [.prompt]) :=
  C10_zero_removed ⟨"1d".data, 1000000, "p", "y", some []⟩ 86400 913600 [] []
    rfl rfl rfl rfl rfl rfl

end ClearFiles
